import Mathlib

/-!
Verification of the finite-difference relaxation program in `src/conduction.py`
(steady-state diffusion of a chemical into a hydrogel, sampled at four points
around a modelled worm).

The program's NumPy array `T` is embedded as a total function `ℕ → ℕ → ℚ`
(row index first, column index second, exactly as `T[i, j]` in the source);
the exact rational arithmetic of `ℚ` models the program's real-number
arithmetic.  All definitions below are transcribed from the source:
the grid constants and boundary values (lines 64-101), the sample-point
coordinates (lines 82-90), the boundary stamping (lines 111-118), the
Gauss-Seidel relaxation loop (lines 121-124), the sampler (line 138) and
the outer sweep loop (lines 70, 150).
-/

namespace Conduction

/-- A 2-D scalar field: the NumPy array `T`, indexed as `T i j` = `T[i, j]`. -/
def Field := ℕ → ℕ → ℚ

/-! ### Hydrogel parameters (source lines 49-58)

These are declared by the program but never consumed by the grid, the solver
or the sampler; they are packaged in a structure so that claim C9 (their
irrelevance to the output) can be stated as a hyperproperty. -/

structure HydrogelParams where
  Et : ℚ
  drug_size : ℚ
  pore_size : ℚ
  tor : ℚ
  diffusivity_NO : ℚ
  diffusivity_EtOH : ℚ
  diffusivity_CO2 : ℚ
  diffusivity_N2 : ℚ
  diffusivity_acetone : ℚ

/-- The literal parameter values assigned in the source. -/
def referenceParams : HydrogelParams :=
  { Et := 0.2
    drug_size := 4.5e-7
    pore_size := 9.5e-6
    tor := 2.2
    diffusivity_NO := 2.6e-5
    diffusivity_EtOH := 0.84e-5
    diffusivity_CO2 := 1.92e-5
    diffusivity_N2 := 1.88e-5
    diffusivity_acetone := 1.16e-5 }

/-- Source: `de = drug_size/pore_size` (source line 58): computed from the parameters
but never used by the computation. -/
def de (p : HydrogelParams) : ℚ := p.drug_size / p.pore_size

/-! ### Grid and sweep constants (source lines 64-101) -/

/-- Source: `end = 500` (source line 64; `end` is reserved in Lean). -/
def endIter : ℕ := 500

/-- Source: `start = 0` (source line 65). -/
def startIter : ℕ := 0

/-- Source: `d = 20` (source line 66). -/
def d : ℕ := 20

/-- Source: `lenX = 60` (source line 78). -/
def lenX : ℕ := 60

/-- Source: `lenY = 60` (source line 78). -/
def lenY : ℕ := 60

/-- Source: `delta = 1` (source line 79), the loop step of the relaxation loops. -/
def delta : ℕ := 1

/-- Source: `Ttop = 100` (source line 95). -/
def Ttop : ℚ := 100

/-- Source: `Tbottom = 0` (source line 96). -/
def Tbottom : ℚ := 0

/-- Source: `Tleft = 100` (source line 97). -/
def Tleft : ℚ := 100

/-- Source: `Tright = 100` (source line 98). -/
def Tright : ℚ := 100

/-- Source: `Tguess = 0` (source line 101). -/
def Tguess : ℚ := 0

/-! ### Sample-point coordinates (source lines 82-89)

Python's `int(...)` truncates; all the truncated quantities here are
nonnegative, so it is the floor `⌊·⌋₊`. -/

/-- Source: `wormA_x = int(lenX/2 - 0.416*lenY)` (source line 82). -/
def wormA_x : ℕ := ⌊(lenX : ℚ)/2 - 0.416*(lenY : ℚ)⌋₊

/-- Source: `wormA_y = int(lenY/2)` (source line 83). -/
def wormA_y : ℕ := ⌊(lenY : ℚ)/2⌋₊

/-- Source: `wormB_x = int(lenX/2)` (source line 84). -/
def wormB_x : ℕ := ⌊(lenX : ℚ)/2⌋₊

/-- Source: `wormB_y = int(lenY/2 + 0.416*lenY)` (source line 85). -/
def wormB_y : ℕ := ⌊(lenY : ℚ)/2 + 0.416*(lenY : ℚ)⌋₊

/-- Source: `wormC_x = int(lenX/2 + 0.416*lenY)` (source line 86). -/
def wormC_x : ℕ := ⌊(lenX : ℚ)/2 + 0.416*(lenY : ℚ)⌋₊

/-- Source: `wormC_y = int(lenY/2)` (source line 87). -/
def wormC_y : ℕ := ⌊(lenY : ℚ)/2⌋₊

/-- Source: `wormD_x = int(lenX/2)` (source line 88). -/
def wormD_x : ℕ := ⌊(lenX : ℚ)/2⌋₊

/-- Source: `wormD_y = int(lenY/2 - 0.416*lenY)` (source line 89). -/
def wormD_y : ℕ := ⌊(lenY : ℚ)/2 - 0.416*(lenY : ℚ)⌋₊

/-! ### Grid Initializer (source lines 111-118)

`T = np.empty((lenX, lenY)); T.fill(Tguess)` then the four edge stampings,
in the source's order: top (`T[(lenY-1):, :]`), bottom (`T[:1, :]`),
right (`T[:, (lenX-1):]`), left (`T[:, :1]`).  A NumPy slice `(N-1):`
covers all indices `≥ N-1` and `:1` covers index `< 1`; the stampings are
embedded with exactly those index conditions. -/

/-- Source: `T.fill(Tguess)` (source line 112). -/
def fillT (g : ℚ) : Field := fun _ _ => g

/-- Source: `T[(lenY-1):, :] = Ttop` (source line 115). -/
def setTop (N : ℕ) (t : ℚ) (T : Field) : Field :=
  fun i j => if N - 1 ≤ i then t else T i j

/-- Source: `T[:1, :] = Tbottom` (source line 116). -/
def setBottom (b : ℚ) (T : Field) : Field :=
  fun i j => if i < 1 then b else T i j

/-- Source: `T[:, (lenX-1):] = Tright` (source line 117). -/
def setRight (N : ℕ) (r : ℚ) (T : Field) : Field :=
  fun i j => if N - 1 ≤ j then r else T i j

/-- Source: `T[:, :1] = Tleft` (source line 118). -/
def setLeft (l : ℚ) (T : Field) : Field :=
  fun i j => if j < 1 then l else T i j

/-- The initialized grid: fill with the guess, then stamp the four edges in
the source's order top, bottom, right, left (the later stamping wins). -/
def initT (N : ℕ) (g t b r l : ℚ) : Field :=
  setLeft l (setRight N r (setBottom b (setTop N t (fillT g))))

/-! ### Relaxation Solver (source lines 121-124)

```
for iteration in range(0, maxIter):
    for i in range(1, lenX-1, delta):
        for j in range(1, lenY-1, delta):
            T[i, j] = 0.25 * (T[i+1][j] + T[i-1][j] + T[i][j+1] + T[i][j-1])
```
With `delta = 1`, `range(1, N-1, delta)` is the list `List.range' 1 (N-2)`
= `[1, …, N-2]`.  The in-place single-cell assignment is `update`; one run
of the inner `j` loop is `rowPass`; one full sweep of the `i`/`j` loops is
`sweep`; `solve N K` runs exactly `K` sweeps. -/

/-- The single in-place assignment `T[i, j] = 0.25 * (T[i+1][j] + T[i-1][j] +
T[i][j+1] + T[i][j-1])` (source line 124). -/
def update (T : Field) (i j : ℕ) : Field :=
  fun a b =>
    if a = i ∧ b = j then 0.25 * (T (i+1) j + T (i-1) j + T i (j+1) + T i (j-1))
    else T a b

/-- The inner `for j in range(1, lenY-1, delta)` loop for a fixed row `i`
(source lines 123-124). -/
def rowPass (N : ℕ) (T : Field) (i : ℕ) : Field :=
  (List.range' 1 (N - 2)).foldl (fun S j => update S i j) T

/-- One full sweep: the `for i in range(1, lenX-1, delta)` loop
(source lines 122-124). -/
def sweep (N : ℕ) (T : Field) : Field :=
  (List.range' 1 (N - 2)).foldl (fun S i => rowPass N S i) T

/-- The outer `for iteration in range(0, maxIter)` loop (source line 121):
exactly `K` sweeps, no convergence check. -/
def solve (N : ℕ) (K : ℕ) (T : Field) : Field := (sweep N)^[K] T

/-! ### Sampler (source line 138) -/

/-- Source: `concentrations = [T[wormA_y,wormA_x], T[wormB_y,wormB_x],
T[wormC_y,wormC_x], T[wormD_y,wormD_x]]` (source line 138): note the
`(y, x)` index order. -/
def concentrations (T : Field) : List ℚ :=
  [T wormA_y wormA_x, T wormB_y wormB_x, T wormC_y wormC_x, T wormD_y wormD_x]

/-! ### Sweep Driver (source lines 70, 111-112, 150) -/

/-- Python's `range(s, e, st)` for a positive step `st`. -/
def pythonRange (s e st : ℕ) : List ℕ := List.range' s ((e - s + st - 1) / st) st

/-- The accumulated record `data`: `for n in range(start, end+1, d)` rebuilds
the field from scratch, solves for `n` sweeps, samples, and appends
`[n, concentrations]` (source lines 70 and 150); `data` is the list that is
written out once, after the loop, by `np.savetxt` (source line 153). -/
def data : List (ℕ × List ℚ) :=
  (pythonRange startIter (endIter + 1) d).foldl
    (fun acc n =>
      acc ++ [(n, concentrations (solve lenX n (initT lenX Tguess Ttop Tbottom Tright Tleft)))])
    []

/-- The whole observable output as a function of the hydrogel parameters:
the source computes `de` from them (line 58) and then never feeds any of
them into the grid, the solver or the sampler. -/
def programData (p : HydrogelParams) : List (ℕ × List ℚ) :=
  let _unused := de p
  data

/-! ## Basic facts about the initializer -/

/-- Closed form of the initialized grid: reading cell `(i, j)` resolves the
four stampings in reverse order of application (left, right, bottom, top),
so the later-applied edge wins every overlap. -/
lemma initT_apply (N : ℕ) (g t b r l : ℚ) (i j : ℕ) :
    initT N g t b r l i j =
      if j < 1 then l
      else if N - 1 ≤ j then r
      else if i < 1 then b
      else if N - 1 ≤ i then t
      else g := rfl

lemma initT_interior (N : ℕ) (g t b r l : ℚ) {i j : ℕ}
    (hi1 : 1 ≤ i) (hi2 : i ≤ N - 2) (hj1 : 1 ≤ j) (hj2 : j ≤ N - 2) :
    initT N g t b r l i j = g := by
  rw [initT_apply, if_neg (by omega), if_neg (by omega), if_neg (by omega),
    if_neg (by omega)]

lemma initT_left (N : ℕ) (g t b r l : ℚ) (i : ℕ) :
    initT N g t b r l i 0 = l := by
  rw [initT_apply, if_pos (by omega)]

lemma initT_right (N : ℕ) (g t b r l : ℚ) (hN : 2 ≤ N) (i : ℕ) :
    initT N g t b r l i (N - 1) = r := by
  rw [initT_apply, if_neg (by omega), if_pos (by omega)]

lemma initT_bottom (N : ℕ) (g t b r l : ℚ) {j : ℕ}
    (hj1 : 1 ≤ j) (hj2 : j ≤ N - 2) :
    initT N g t b r l 0 j = b := by
  rw [initT_apply, if_neg (by omega), if_neg (by omega), if_pos (by omega)]

lemma initT_top (N : ℕ) (g t b r l : ℚ) {j : ℕ}
    (hj1 : 1 ≤ j) (hj2 : j ≤ N - 2) :
    initT N g t b r l (N - 1) j = t := by
  rw [initT_apply, if_neg (by omega), if_neg (by omega), if_neg (by omega),
    if_pos (by omega)]

/-! ## Values of the sample-point coordinates -/

lemma wormA_x_val : wormA_x = 5 := by
  simp only [wormA_x, lenX, lenY]
  rw [Nat.floor_eq_iff (by norm_num)]
  norm_num

lemma wormA_y_val : wormA_y = 30 := by
  simp only [wormA_y, lenY]
  rw [Nat.floor_eq_iff (by norm_num)]
  norm_num

lemma wormB_x_val : wormB_x = 30 := by
  simp only [wormB_x, lenX]
  rw [Nat.floor_eq_iff (by norm_num)]
  norm_num

lemma wormB_y_val : wormB_y = 54 := by
  simp only [wormB_y, lenY]
  rw [Nat.floor_eq_iff (by norm_num)]
  norm_num

lemma wormC_x_val : wormC_x = 54 := by
  simp only [wormC_x, lenX, lenY]
  rw [Nat.floor_eq_iff (by norm_num)]
  norm_num

lemma wormC_y_val : wormC_y = 30 := by
  simp only [wormC_y, lenY]
  rw [Nat.floor_eq_iff (by norm_num)]
  norm_num

lemma wormD_x_val : wormD_x = 30 := by
  simp only [wormD_x, lenX]
  rw [Nat.floor_eq_iff (by norm_num)]
  norm_num

lemma wormD_y_val : wormD_y = 5 := by
  simp only [wormD_y, lenY]
  rw [Nat.floor_eq_iff (by norm_num)]
  norm_num

/-! ## Cells the loops never write -/

lemma update_same (T : Field) (i j : ℕ) :
    update T i j i j = 0.25 * (T (i+1) j + T (i-1) j + T i (j+1) + T i (j-1)) := by
  simp [update]

lemma update_ne (T : Field) (i j a b : ℕ) (h : ¬(a = i ∧ b = j)) :
    update T i j a b = T a b := by
  simp only [update, if_neg h]

/-- A run of inner-loop assignments on row `i` over the column list `L`
leaves every cell outside row `i`, and every cell of row `i` whose column is
not in `L`, unchanged. -/
lemma foldl_update_ne (i : ℕ) :
    ∀ (L : List ℕ) (T : Field) (a b : ℕ), a ≠ i ∨ b ∉ L →
      (L.foldl (fun S j => update S i j) T) a b = T a b := by
  intro L
  induction L with
  | nil => intro T a b _; rfl
  | cons x L ih =>
      intro T a b h
      have h' : a ≠ i ∨ b ∉ L := by
        rcases h with h | h
        · exact Or.inl h
        · exact Or.inr fun hm => h (List.mem_cons_of_mem _ hm)
      have hx : ¬(a = i ∧ b = x) := by
        rcases h with h | h
        · exact fun hc => h hc.1
        · exact fun hc => h (hc.2 ▸ List.mem_cons_self x L)
      show (L.foldl (fun S j => update S i j) (update T i x)) a b = T a b
      rw [ih (update T i x) a b h', update_ne T i x a b hx]

lemma rowPass_ne (N : ℕ) (T : Field) (i a b : ℕ)
    (h : a ≠ i ∨ b = 0 ∨ N - 2 < b) :
    rowPass N T i a b = T a b := by
  apply foldl_update_ne
  rcases h with h | h
  · exact Or.inl h
  · exact Or.inr (by simp only [List.mem_range'_1]; omega)

/-- A run of row passes over the row list `L` leaves every cell whose row is
not in `L`, and every cell whose column is outside `1..N-2`, unchanged. -/
lemma foldl_rowPass_ne (N : ℕ) :
    ∀ (L : List ℕ) (T : Field) (a b : ℕ), a ∉ L ∨ b = 0 ∨ N - 2 < b →
      (L.foldl (fun S i => rowPass N S i) T) a b = T a b := by
  intro L
  induction L with
  | nil => intro T a b _; rfl
  | cons x L ih =>
      intro T a b h
      have h' : a ∉ L ∨ b = 0 ∨ N - 2 < b := by
        rcases h with h | h
        · exact Or.inl fun hm => h (List.mem_cons_of_mem _ hm)
        · exact Or.inr h
      have hx : a ≠ x ∨ b = 0 ∨ N - 2 < b := by
        rcases h with h | h
        · exact Or.inl fun hc => h (hc ▸ List.mem_cons_self x L)
        · exact Or.inr h
      show (L.foldl (fun S i => rowPass N S i) (rowPass N T x)) a b = T a b
      rw [ih (rowPass N T x) a b h', rowPass_ne N T x a b hx]

lemma sweep_ne (N : ℕ) (T : Field) (a b : ℕ)
    (h : a = 0 ∨ N - 2 < a ∨ b = 0 ∨ N - 2 < b) :
    sweep N T a b = T a b := by
  apply foldl_rowPass_ne
  rcases h with h | h | h
  · exact Or.inl (by simp only [List.mem_range'_1]; omega)
  · exact Or.inl (by simp only [List.mem_range'_1]; omega)
  · exact Or.inr h

lemma solve_zero (N : ℕ) (T : Field) : solve N 0 T = T := rfl

lemma solve_succ (N K : ℕ) (T : Field) :
    solve N (K+1) T = sweep N (solve N K T) :=
  Function.iterate_succ_apply' (sweep N) K T

lemma solve_ne (N K : ℕ) (T : Field) (a b : ℕ)
    (h : a = 0 ∨ N - 2 < a ∨ b = 0 ∨ N - 2 < b) :
    solve N K T a b = T a b := by
  induction K with
  | zero => rfl
  | succ K ih => rw [solve_succ, sweep_ne N _ a b h, ih]

/-! ## The Gauss-Seidel recurrence of one completed sweep

Within a sweep the cells are visited in ascending row-major order, so when
cell `(i, j)` is assigned, rows `< i` and the cells `(i, 1..j-1)` already
hold their final values for this sweep, while `(i+1, j)` and `(i, j+1)` still
hold the values the sweep started from.  The next two lemmas capture this. -/

lemma rowAux_rec (i : ℕ) (hi : 1 ≤ i) :
    ∀ (n : ℕ) (T : Field) (b : ℕ), 1 ≤ b → b ≤ n →
      ((List.range' 1 n).foldl (fun S j => update S i j) T) i b
        = 0.25 * (T (i+1) b + T (i-1) b + T i (b+1)
            + ((List.range' 1 n).foldl (fun S j => update S i j) T) i (b-1)) := by
  intro n
  induction n with
  | zero => intro T b h1 h2; omega
  | succ n ih =>
      intro T b h1 h2
      have hsplit : List.range' 1 (n+1) = List.range' 1 n ++ [1 + n] :=
        List.range'_1_concat 1 n
      rw [hsplit, List.foldl_append, List.foldl_cons, List.foldl_nil]
      rcases Nat.lt_or_ge b (n+1) with hb | hb
      · -- column b was finished before the final assignment of the row
        rw [update_ne _ i (1+n) i b (by omega),
          update_ne _ i (1+n) i (b-1) (by omega)]
        exact ih T b h1 (by omega)
      · -- b = n+1: the final assignment of the row
        have hbeq : b = 1 + n := by omega
        subst hbeq
        rw [update_same]
        rw [foldl_update_ne i _ _ (i+1) (1+n) (Or.inl (by omega)),
          foldl_update_ne i _ _ (i-1) (1+n) (Or.inl (by omega)),
          foldl_update_ne i _ _ i (1+n+1)
            (Or.inr (by simp only [List.mem_range'_1]; omega)),
          update_ne _ i (1+n) i (1+n-1) (by omega)]

lemma rowPass_rec (N : ℕ) (T : Field) (i b : ℕ) (hi : 1 ≤ i)
    (hb1 : 1 ≤ b) (hb2 : b ≤ N - 2) :
    rowPass N T i i b
      = 0.25 * (T (i+1) b + T (i-1) b + T i (b+1) + rowPass N T i i (b-1)) :=
  rowAux_rec i hi (N-2) T b hb1 hb2

/-- After one completed sweep, every interior cell satisfies the Gauss-Seidel
recurrence: its new value is a quarter of the sum of the *new* values of its
upper and left neighbours (already rewritten by this sweep, or boundary cells
the sweep never touches) and the *old* values of its lower and right
neighbours (not yet rewritten when the cell was assigned). -/
lemma sweep_rec (N : ℕ) (T : Field) (i j : ℕ)
    (hi1 : 1 ≤ i) (hi2 : i ≤ N - 2) (hj1 : 1 ≤ j) (hj2 : j ≤ N - 2) :
    sweep N T i j
      = 0.25 * (T (i+1) j + sweep N T (i-1) j + T i (j+1) + sweep N T i (j-1)) := by
  have main : ∀ (m : ℕ) (T : Field) (a : ℕ), 1 ≤ a → a ≤ m →
      ∀ b : ℕ, 1 ≤ b → b ≤ N - 2 →
      ((List.range' 1 m).foldl (fun S i => rowPass N S i) T) a b
        = 0.25 * (T (a+1) b
            + ((List.range' 1 m).foldl (fun S i => rowPass N S i) T) (a-1) b
            + T a (b+1)
            + ((List.range' 1 m).foldl (fun S i => rowPass N S i) T) a (b-1)) := by
    intro m
    induction m with
    | zero => intro T a h1 h2; omega
    | succ m ih =>
        intro T a h1 h2 b hb1 hb2
        have hsplit : List.range' 1 (m+1) = List.range' 1 m ++ [1 + m] :=
          List.range'_1_concat 1 m
        rw [hsplit, List.foldl_append, List.foldl_cons, List.foldl_nil]
        rcases Nat.lt_or_ge a (m+1) with ha | ha
        · -- row a was finished before the final row pass
          rw [rowPass_ne N _ (1+m) a b (Or.inl (by omega)),
            rowPass_ne N _ (1+m) (a-1) b (Or.inl (by omega)),
            rowPass_ne N _ (1+m) a (b-1) (Or.inl (by omega))]
          exact ih T a h1 (by omega) b hb1 hb2
        · -- a = m+1: the final row pass of this prefix
          have haeq : a = 1 + m := by omega
          subst haeq
          rw [rowPass_rec N _ (1+m) b (by omega) hb1 hb2]
          rw [foldl_rowPass_ne N _ _ (1+m+1) b
              (Or.inl (by simp only [List.mem_range'_1]; omega)),
            foldl_rowPass_ne N _ _ (1+m) (b+1)
              (Or.inl (by simp only [List.mem_range'_1]; omega)),
            rowPass_ne N _ (1+m) (1+m-1) b (Or.inl (by omega))]
  exact main (N-2) T i hi1 hi2 j hj1 hj2

/-! ## Interval bounds are preserved by the solver -/

lemma update_bounds (lo hi : ℚ) (T : Field) (i j : ℕ)
    (h : ∀ a b, lo ≤ T a b ∧ T a b ≤ hi) :
    ∀ a b, lo ≤ update T i j a b ∧ update T i j a b ≤ hi := by
  intro a b
  by_cases hc : a = i ∧ b = j
  · rcases hc with ⟨rfl, rfl⟩
    rw [update_same]
    have h1 := h (a+1) b
    have h2 := h (a-1) b
    have h3 := h a (b+1)
    have h4 := h a (b-1)
    constructor <;> [linarith; linarith]
  · rw [update_ne T i j a b hc]; exact h a b

lemma foldl_update_bounds (lo hi : ℚ) (i : ℕ) :
    ∀ (L : List ℕ) (T : Field), (∀ a b, lo ≤ T a b ∧ T a b ≤ hi) →
      ∀ a b, lo ≤ (L.foldl (fun S j => update S i j) T) a b ∧
        (L.foldl (fun S j => update S i j) T) a b ≤ hi := by
  intro L
  induction L with
  | nil => intro T h; exact h
  | cons x L ih => intro T h; exact ih (update T i x) (update_bounds lo hi T i x h)

lemma rowPass_bounds (lo hi : ℚ) (N : ℕ) (T : Field) (i : ℕ)
    (h : ∀ a b, lo ≤ T a b ∧ T a b ≤ hi) :
    ∀ a b, lo ≤ rowPass N T i a b ∧ rowPass N T i a b ≤ hi :=
  foldl_update_bounds lo hi i _ T h

lemma sweep_bounds (lo hi : ℚ) (N : ℕ) :
    ∀ (T : Field), (∀ a b, lo ≤ T a b ∧ T a b ≤ hi) →
      ∀ a b, lo ≤ sweep N T a b ∧ sweep N T a b ≤ hi := by
  have main : ∀ (L : List ℕ) (T : Field), (∀ a b, lo ≤ T a b ∧ T a b ≤ hi) →
      ∀ a b, lo ≤ (L.foldl (fun S i => rowPass N S i) T) a b ∧
        (L.foldl (fun S i => rowPass N S i) T) a b ≤ hi := by
    intro L
    induction L with
    | nil => intro T h; exact h
    | cons x L ih => intro T h; exact ih (rowPass N T x) (rowPass_bounds lo hi N T x h)
  exact fun T h => main _ T h

lemma solve_bounds (lo hi : ℚ) (N K : ℕ) (T : Field)
    (h : ∀ a b, lo ≤ T a b ∧ T a b ≤ hi) :
    ∀ a b, lo ≤ solve N K T a b ∧ solve N K T a b ≤ hi := by
  induction K with
  | zero => exact h
  | succ K ih =>
      intro a b
      rw [solve_succ]
      exact sweep_bounds lo hi N _ ih a b

/-! ## Claim C1: structure of the Relaxation Solver -/

/-- Claim C1: The Relaxation Solver for a non-negative iteration count `K`:
`K = 0` sweeps is the identity and `K+1` sweeps is one more full sweep after
`K` — exactly `K` sweeps for every `K`, with no convergence check cutting
the iteration short.  Within one sweep the first axis is the outer loop and
the second the inner loop, both ascending: the recurrence in the third
conjunct shows that the assigned value of interior cell `(i, j)` combines
the *current* (already rewritten this sweep) values of `(i-1, j)` and
`(i, j-1)` with the not-yet-rewritten values of `(i+1, j)` and `(i, j+1)`,
each visited cell being replaced in place by `0.25` times the sum of its
four direct lattice neighbours; the fourth conjunct shows that a sweep
writes nothing outside the interior `1..N-2 × 1..N-2`. -/
theorem C1_relaxation_solver (N : ℕ) :
    (∀ T : Field, solve N 0 T = T) ∧
    (∀ (K : ℕ) (T : Field), solve N (K+1) T = sweep N (solve N K T)) ∧
    (∀ (T : Field) (i j : ℕ), 1 ≤ i → i ≤ N - 2 → 1 ≤ j → j ≤ N - 2 →
      sweep N T i j
        = 0.25 * (T (i+1) j + sweep N T (i-1) j + T i (j+1) + sweep N T i (j-1))) ∧
    (∀ (T : Field) (a b : ℕ), a = 0 ∨ N - 2 < a ∨ b = 0 ∨ N - 2 < b →
      sweep N T a b = T a b) :=
  ⟨solve_zero N, solve_succ N,
    fun T i j hi1 hi2 hj1 hj2 => sweep_rec N T i j hi1 hi2 hj1 hj2,
    fun T a b h => sweep_ne N T a b h⟩

/-- Witness for C1 at a concrete input: the one-sweep recurrence at the
interior cell `(1, 1)` of a 4×4 grid. -/
theorem C1_relaxation_solver_witness :
    sweep 4 (initT 4 0 1 2 3 4) 1 1
      = 0.25 * (initT 4 0 1 2 3 4 2 1 + sweep 4 (initT 4 0 1 2 3 4) 0 1
          + initT 4 0 1 2 3 4 1 2 + sweep 4 (initT 4 0 1 2 3 4) 1 0) :=
  (C1_relaxation_solver 4).2.2.1 (initT 4 0 1 2 3 4) 1 1
    (by decide) (by decide) (by decide) (by decide)

/-! ## Claim C3: the Grid Initializer -/

/-- Claim C3: The Grid Initializer produces a field whose interior
(`1..N-2` in both axes) is the guess value, whose four outermost
rows/columns carry their boundary values, and whose overlaps are resolved
by the apply order top, bottom, right, left: the left value, stamped last,
wins every corner tie it takes part in — it overrides bottom at `(0, 0)`
and top at `(N-1, 0)`, and in the degenerate `N = 1` grid (where the single
cell lies on all four edges) it also overrides right; at the two
right-column corners, where the left edge is not involved, the right value
(stamped after top and bottom) stands. -/
theorem C3_grid_init (N : ℕ) (g t b r l : ℚ) (hN : 2 ≤ N) :
    (∀ i j, 1 ≤ i → i ≤ N - 2 → 1 ≤ j → j ≤ N - 2 → initT N g t b r l i j = g) ∧
    (∀ i, initT N g t b r l i 0 = l) ∧
    (∀ i, initT N g t b r l i (N-1) = r) ∧
    (∀ j, 1 ≤ j → j ≤ N - 2 → initT N g t b r l 0 j = b ∧ initT N g t b r l (N-1) j = t) ∧
    (initT N g t b r l 0 0 = l ∧ initT N g t b r l (N-1) 0 = l ∧
      initT N g t b r l 0 (N-1) = r ∧ initT N g t b r l (N-1) (N-1) = r) ∧
    initT 1 g t b r l 0 0 = l := by
  refine ⟨fun i j hi1 hi2 hj1 hj2 => initT_interior N g t b r l hi1 hi2 hj1 hj2,
    fun i => initT_left N g t b r l i,
    fun i => initT_right N g t b r l hN i,
    fun j hj1 hj2 => ⟨initT_bottom N g t b r l hj1 hj2, initT_top N g t b r l hj1 hj2⟩,
    ⟨initT_left N g t b r l 0, initT_left N g t b r l (N-1),
      initT_right N g t b r l hN 0, initT_right N g t b r l hN (N-1)⟩,
    initT_left 1 g t b r l 0⟩

/-- Witness for C3 on a concrete 3×3 grid with five distinct values:
interior guess, and the left value at the corner `(0, 0)` where bottom was
stamped earlier. -/
theorem C3_grid_init_witness :
    initT 3 0 1 2 3 4 1 1 = 0 ∧ initT 3 0 1 2 3 4 0 0 = 4 ∧
      initT 3 0 1 2 3 4 0 2 = 3 := by
  refine ⟨(C3_grid_init 3 0 1 2 3 4 (by decide)).1 1 1
      (by decide) (by decide) (by decide) (by decide),
    (C3_grid_init 3 0 1 2 3 4 (by decide)).2.2.2.2.1.1, ?_⟩
  have h := (C3_grid_init 3 0 1 2 3 4 (by decide)).2.2.2.2.1.2.2.1
  simpa using h

/-! ## Claim C2: boundary invariance -/

/-- Claim C2: After any number `K` of sweeps the outermost rows and columns
hold exactly the values stamped at grid construction (column 0 the left
value, column `N-1` the right value, and the remaining cells of rows 0 and
`N-1` the bottom and top values), because the solver never writes any
boundary cell (last conjunct: every boundary cell still holds the field's
initial value). -/
theorem C2_boundary_invariance (N : ℕ) (g t b r l : ℚ) (K : ℕ) (hN : 2 ≤ N) :
    (∀ i, solve N K (initT N g t b r l) i 0 = l ∧
      solve N K (initT N g t b r l) i (N-1) = r) ∧
    (∀ j, 1 ≤ j → j ≤ N - 2 → solve N K (initT N g t b r l) 0 j = b ∧
      solve N K (initT N g t b r l) (N-1) j = t) ∧
    (∀ a c, a = 0 ∨ a = N - 1 ∨ c = 0 ∨ c = N - 1 →
      solve N K (initT N g t b r l) a c = initT N g t b r l a c) := by
  refine ⟨fun i => ⟨?_, ?_⟩, fun j hj1 hj2 => ⟨?_, ?_⟩, fun a c h => ?_⟩
  · rw [solve_ne N K _ i 0 (by omega), initT_left]
  · rw [solve_ne N K _ i (N-1) (by omega), initT_right N g t b r l hN]
  · rw [solve_ne N K _ 0 j (by omega), initT_bottom N g t b r l hj1 hj2]
  · rw [solve_ne N K _ (N-1) j (by omega), initT_top N g t b r l hj1 hj2]
  · exact solve_ne N K _ a c (by omega)

/-- Witness for C2: on a 3×3 grid with distinct boundary values, after one
sweep the four edge midpoints still hold left, right, bottom and top. -/
theorem C2_boundary_invariance_witness :
    solve 3 1 (initT 3 0 1 2 3 4) 1 0 = 4 ∧
      solve 3 1 (initT 3 0 1 2 3 4) 1 2 = 3 ∧
      solve 3 1 (initT 3 0 1 2 3 4) 0 1 = 2 ∧
      solve 3 1 (initT 3 0 1 2 3 4) 2 1 = 1 := by
  have h := C2_boundary_invariance 3 0 1 2 3 4 1 (by decide)
  exact ⟨(h.1 1).1, by simpa using (h.1 1).2,
    by simpa using (h.2.1 1 (by decide) (by decide)).1,
    by simpa using (h.2.1 1 (by decide) (by decide)).2⟩

/-! ## Claim C4: zero iterations -/

/-- Claim C4: With `K = 0` the solver returns the field unchanged (first
conjunct, for every field), and on the configured 60×60 grid the Sampler
then reads the interior guess value at all four sample points, whatever the
guess and boundary values are (the four sample coordinates are strictly
interior for `N = 60`). -/
theorem C4_zero_iterations :
    (∀ (N : ℕ) (T : Field), solve N 0 T = T) ∧
    (∀ g t b r l : ℚ,
      concentrations (solve lenX 0 (initT lenX g t b r l)) = [g, g, g, g]) := by
  refine ⟨fun N T => rfl, fun g t b r l => ?_⟩
  show concentrations (initT lenX g t b r l) = [g, g, g, g]
  rw [concentrations, wormA_x_val, wormA_y_val, wormB_x_val, wormB_y_val,
    wormC_x_val, wormC_y_val, wormD_x_val, wormD_y_val]
  rw [show lenX = 60 from rfl]
  rw [initT_interior 60 g t b r l (by omega) (by omega) (by omega) (by omega),
    initT_interior 60 g t b r l (by omega) (by omega) (by omega) (by omega),
    initT_interior 60 g t b r l (by omega) (by omega) (by omega) (by omega),
    initT_interior 60 g t b r l (by omega) (by omega) (by omega) (by omega)]

/-! ## Claim C10: the discrete maximum principle -/

/-- The least of the five values a freshly initialized grid can contain. -/
def minInit (g t b r l : ℚ) : ℚ := min g (min t (min b (min r l)))

/-- The greatest of the five values a freshly initialized grid can contain. -/
def maxInit (g t b r l : ℚ) : ℚ := max g (max t (max b (max r l)))

lemma initT_bounds (N : ℕ) (g t b r l : ℚ) :
    ∀ a b', minInit g t b r l ≤ initT N g t b r l a b' ∧
      initT N g t b r l a b' ≤ maxInit g t b r l := by
  intro a b'
  have hg : minInit g t b r l ≤ g := min_le_left _ _
  have ht : minInit g t b r l ≤ t := le_trans (min_le_right _ _) (min_le_left _ _)
  have hb : minInit g t b r l ≤ b :=
    le_trans (min_le_right _ _) (le_trans (min_le_right _ _) (min_le_left _ _))
  have hr : minInit g t b r l ≤ r :=
    le_trans (min_le_right _ _)
      (le_trans (min_le_right _ _) (le_trans (min_le_right _ _) (min_le_left _ _)))
  have hl : minInit g t b r l ≤ l :=
    le_trans (min_le_right _ _)
      (le_trans (min_le_right _ _) (le_trans (min_le_right _ _) (min_le_right _ _)))
  have hg' : g ≤ maxInit g t b r l := le_max_left _ _
  have ht' : t ≤ maxInit g t b r l := le_trans (le_max_left _ _) (le_max_right _ _)
  have hb' : b ≤ maxInit g t b r l :=
    le_trans (le_trans (le_max_left _ _) (le_max_right _ _)) (le_max_right _ _)
  have hr' : r ≤ maxInit g t b r l :=
    le_trans (le_trans (le_trans (le_max_left _ _) (le_max_right _ _))
      (le_max_right _ _)) (le_max_right _ _)
  have hl' : l ≤ maxInit g t b r l :=
    le_trans (le_trans (le_trans (le_max_right _ _) (le_max_right _ _))
      (le_max_right _ _)) (le_max_right _ _)
  rw [initT_apply]
  split_ifs <;> exact ⟨by assumption, by assumption⟩

/-- Claim C10: Maximum principle: for any guess and boundary values, every
cell of the field, after any number of sweeps, stays inside the closed
interval from the least to the greatest of the five initialization values;
each interior update is a quarter of the sum of four cells already inside
that interval, so every operation keeps the invariant.  (Proved for every
index pair, hence in particular for every cell of the `N × N` grid.) -/
theorem C10_maximum_principle (N : ℕ) (g t b r l : ℚ) (K : ℕ) (i j : ℕ) :
    minInit g t b r l ≤ solve N K (initT N g t b r l) i j ∧
      solve N K (initT N g t b r l) i j ≤ maxInit g t b r l :=
  solve_bounds (minInit g t b r l) (maxInit g t b r l) N K
    (initT N g t b r l) (initT_bounds N g t b r l) i j

/-! ## Claim C5: the concrete scenario (N = 60, K = 500)

With the configured boundary values (top = left = right = 100, bottom = 0)
and guess 0, one completed sweep makes every interior cell strictly
positive (the value 100 of column 0 reaches cell `(i, 1)` and then
propagates rightwards through the already-rewritten `(i, j-1)` values) and
strictly below 100 (the value 0 of row 0 reaches row 1 and then propagates
downwards through the already-rewritten `(i-1, j)` values).  The bounds
`[0, 100]` themselves are kept by every sweep, so after `500 = 499 + 1`
sweeps the four strictly-interior sample cells are strictly between 0 and
100. -/

lemma sweep_strict (T : Field)
    (hb : ∀ a b, 0 ≤ T a b ∧ T a b ≤ 100)
    (hc0 : ∀ a, T a 0 = 100)
    (hr0 : ∀ b, 1 ≤ b → b ≤ 58 → T 0 b = 0) :
    ∀ i j, 1 ≤ i → i ≤ 58 → 1 ≤ j → j ≤ 58 →
      0 < sweep 60 T i j ∧ sweep 60 T i j < 100 := by
  have key : ∀ s i j, i + j ≤ s → 1 ≤ i → i ≤ 58 → 1 ≤ j → j ≤ 58 →
      0 < sweep 60 T i j ∧ sweep 60 T i j < 100 := by
    intro s
    induction s with
    | zero => intro i j hs h1; omega
    | succ s ih =>
        intro i j hs h1 h2 h3 h4
        rcases Nat.lt_or_ge (i + j) (s + 1) with hlt | hge
        · exact ih i j (by omega) h1 h2 h3 h4
        have hrec := sweep_rec 60 T i j h1 (by omega) h3 (by omega)
        have hup : 0 ≤ sweep 60 T (i-1) j ∧ sweep 60 T (i-1) j < 100 := by
          rcases Nat.eq_or_lt_of_le h1 with h | h
          · have hi0 : i - 1 = 0 := by omega
            rw [hi0, sweep_ne 60 T 0 j (by omega), hr0 j h3 h4]
            norm_num
          · have := ih (i-1) j (by omega) (by omega) (by omega) h3 h4
            exact ⟨le_of_lt this.1, this.2⟩
        have hleft : 0 < sweep 60 T i (j-1) ∧ sweep 60 T i (j-1) ≤ 100 := by
          rcases Nat.eq_or_lt_of_le h3 with h | h
          · have hj0 : j - 1 = 0 := by omega
            rw [hj0, sweep_ne 60 T i 0 (by omega), hc0 i]
            norm_num
          · have := ih i (j-1) (by omega) h1 h2 (by omega) (by omega)
            exact ⟨this.1, le_of_lt this.2⟩
        have hdown := hb (i+1) j
        have hright := hb i (j+1)
        rw [hrec]
        constructor
        · linarith [hdown.1, hright.1, hup.1, hleft.1]
        · linarith [hdown.2, hright.2, hup.2, hleft.2]
  exact fun i j h1 h2 h3 h4 => key (i + j) i j le_rfl h1 h2 h3 h4

lemma cfg500_bounds :
    ∀ a b, 0 ≤ initT 60 Tguess Ttop Tbottom Tright Tleft a b ∧
      initT 60 Tguess Ttop Tbottom Tright Tleft a b ≤ 100 := by
  intro a b
  rw [initT_apply]
  split_ifs <;> norm_num [Tguess, Ttop, Tbottom, Tright, Tleft]

lemma solveCfg500_bounds (k : ℕ) :
    ∀ a b, 0 ≤ solve 60 k (initT 60 Tguess Ttop Tbottom Tright Tleft) a b ∧
      solve 60 k (initT 60 Tguess Ttop Tbottom Tright Tleft) a b ≤ 100 :=
  solve_bounds 0 100 60 k _ cfg500_bounds

lemma solveCfg500_col0 (k : ℕ) (a : ℕ) :
    solve 60 k (initT 60 Tguess Ttop Tbottom Tright Tleft) a 0 = 100 := by
  rw [solve_ne 60 k _ a 0 (by omega), initT_left]
  rfl

lemma solveCfg500_row0 (k : ℕ) (b : ℕ) (hb1 : 1 ≤ b) (hb2 : b ≤ 58) :
    solve 60 k (initT 60 Tguess Ttop Tbottom Tright Tleft) 0 b = 0 := by
  rw [solve_ne 60 k _ 0 b (by omega),
    initT_bottom 60 Tguess Ttop Tbottom Tright Tleft hb1 (by omega)]
  rfl

lemma solveCfg500_strict (k : ℕ) :
    ∀ i j, 1 ≤ i → i ≤ 58 → 1 ≤ j → j ≤ 58 →
      0 < solve 60 (k+1) (initT 60 Tguess Ttop Tbottom Tright Tleft) i j ∧
        solve 60 (k+1) (initT 60 Tguess Ttop Tbottom Tright Tleft) i j < 100 := by
  intro i j h1 h2 h3 h4
  rw [solve_succ]
  exact sweep_strict _ (solveCfg500_bounds k) (solveCfg500_col0 k)
    (solveCfg500_row0 k) i j h1 h2 h3 h4

/-- Claim C5: In the configured scenario — 60×60 grid, boundary values
top = 100, bottom = 0, left = 100, right = 100, interior guess 0, and
`K = 500` sweeps — each of the four values returned by the Sampler (which
reads the field as `T[y, x]` at the coordinates `(5,30)`, `(30,54)`,
`(54,30)`, `(30,5)`) is strictly greater than 0 and strictly less than
100. -/
theorem C5_concrete_scenario :
    List.Forall (fun q => 0 < q ∧ q < 100)
      (concentrations (solve lenX 500 (initT lenX Tguess Ttop Tbottom Tright Tleft))) := by
  rw [show lenX = 60 from rfl]
  rw [concentrations, wormA_x_val, wormA_y_val, wormB_x_val, wormB_y_val,
    wormC_x_val, wormC_y_val, wormD_x_val, wormD_y_val]
  have h1 := solveCfg500_strict 499 30 5 (by omega) (by omega) (by omega) (by omega)
  have h2 := solveCfg500_strict 499 54 30 (by omega) (by omega) (by omega) (by omega)
  have h3 := solveCfg500_strict 499 30 54 (by omega) (by omega) (by omega) (by omega)
  have h4 := solveCfg500_strict 499 5 30 (by omega) (by omega) (by omega) (by omega)
  norm_num at h1 h2 h3 h4
  exact ⟨h1, h2, h3, h4⟩

/-! ## Claim C6: equal boundary values and the four sample points

The four sample points `(30,5)`, `(54,30)`, `(30,54)`, `(5,30)` (row-major)
fall into two transposition-related pairs, A↔D and B↔C.  The Gauss-Seidel
update rule is equivariant under transposing the grid, so a field that is
symmetric under transposition stays so, and with all four boundary values
equal the initialized grid is transposition-symmetric: A = D and B = C for
every `K`.  The *quarter-turn* symmetry relating A to B, however, is broken
by the ascending row-major sweep order, and indeed one sweep from guess 0
with all boundaries 1 leaves sample A (five cells from the column the sweep
reads first) at least `4⁻⁵` while sample B (thirty cells deep) is at most
`2⁻³⁰`. -/

/-- Transposition symmetry of a field. -/
def SymmF (T : Field) : Prop := ∀ a b, T a b = T b a

lemma initT_allEqual_symm (N : ℕ) (g c : ℚ) : SymmF (initT N g c c c c) := by
  intro a b
  rw [initT_apply, initT_apply]
  split_ifs <;> rfl

lemma sweep_symm (N : ℕ) (T : Field) (hT : SymmF T) : SymmF (sweep N T) := by
  have key : ∀ s a b, a + b ≤ s → sweep N T a b = sweep N T b a := by
    intro s
    induction s with
    | zero =>
        intro a b hs
        have ha : a = 0 := by omega
        have hb : b = 0 := by omega
        subst ha; subst hb; rfl
    | succ s ih =>
        intro a b hs
        by_cases hint : 1 ≤ a ∧ a ≤ N - 2 ∧ 1 ≤ b ∧ b ≤ N - 2
        · obtain ⟨ha1, ha2, hb1, hb2⟩ := hint
          rw [sweep_rec N T a b ha1 ha2 hb1 hb2,
            sweep_rec N T b a hb1 hb2 ha1 ha2,
            hT (a+1) b, hT a (b+1),
            ih (a-1) b (by omega), ih a (b-1) (by omega)]
          ring
        · have hab : a = 0 ∨ N - 2 < a ∨ b = 0 ∨ N - 2 < b := by omega
          have hba : b = 0 ∨ N - 2 < b ∨ a = 0 ∨ N - 2 < a := by omega
          rw [sweep_ne N T a b hab, sweep_ne N T b a hba, hT a b]
  exact fun a b => key (a + b) a b le_rfl

lemma solve_symm (N K : ℕ) (T : Field) (hT : SymmF T) : SymmF (solve N K T) := by
  induction K with
  | zero => exact hT
  | succ K ih => rw [solve_succ]; exact sweep_symm N _ ih

/-! Facts about one sweep from the all-boundaries-1, guess-0 grid. -/

lemma i1_interior_zero {a b : ℕ} (h1 : 1 ≤ a) (h2 : a ≤ 58) (h3 : 1 ≤ b) (h4 : b ≤ 58) :
    initT 60 (0:ℚ) 1 1 1 1 a b = 0 :=
  initT_interior 60 0 1 1 1 1 h1 (by omega) h3 (by omega)

lemma i1_bounds : ∀ a b, 0 ≤ initT 60 (0:ℚ) 1 1 1 1 a b ∧
    initT 60 (0:ℚ) 1 1 1 1 a b ≤ 1 := by
  intro a b
  rw [initT_apply]
  split_ifs <;> norm_num

lemma w1_bounds : ∀ a b, 0 ≤ sweep 60 (initT 60 (0:ℚ) 1 1 1 1) a b ∧
    sweep 60 (initT 60 (0:ℚ) 1 1 1 1) a b ≤ 1 :=
  sweep_bounds 0 1 60 _ i1_bounds

lemma w1_edge_col (a : ℕ) : sweep 60 (initT 60 (0:ℚ) 1 1 1 1) a 0 = 1 := by
  rw [sweep_ne 60 _ a 0 (by omega), initT_left]

lemma w1_edge_row (b : ℕ) (hb : b ≤ 58) :
    sweep 60 (initT 60 (0:ℚ) 1 1 1 1) 0 b = 1 := by
  rw [sweep_ne 60 _ 0 b (by omega)]
  rcases Nat.eq_zero_or_pos b with h | h
  · subst h; rw [initT_left]
  · rw [initT_bottom 60 0 1 1 1 1 h (by omega)]

/-- In the region at distance ≥ 2 from the far edges, the old values read by
the first sweep are all interior (hence 0), and the completed-sweep
recurrence collapses to an average of the upper and left new values. -/
lemma w1_rec (i j : ℕ) (h1 : 1 ≤ i) (h2 : i ≤ 57) (h3 : 1 ≤ j) (h4 : j ≤ 57) :
    sweep 60 (initT 60 (0:ℚ) 1 1 1 1) i j
      = 0.25 * (sweep 60 (initT 60 (0:ℚ) 1 1 1 1) (i-1) j
          + sweep 60 (initT 60 (0:ℚ) 1 1 1 1) i (j-1)) := by
  have h := sweep_rec 60 (initT 60 (0:ℚ) 1 1 1 1) i j h1 (by omega) h3 (by omega)
  rw [i1_interior_zero (by omega) (by omega) h3 (by omega),
    i1_interior_zero h1 (by omega) (by omega) (by omega)] at h
  rw [h]; ring

lemma w1_upper : ∀ s i j, i + j ≤ s → i ≤ 57 → j ≤ 57 →
    sweep 60 (initT 60 (0:ℚ) 1 1 1 1) i j ≤ (1/2 : ℚ)^(min i j) := by
  intro s
  induction s with
  | zero =>
      intro i j hs h1 h2
      have hi : i = 0 := by omega
      have hj : j = 0 := by omega
      subst hi; subst hj
      rw [w1_edge_row 0 (by omega)]
      norm_num
  | succ s ih =>
      intro i j hs h1 h2
      rcases Nat.eq_zero_or_pos i with hi | hi
      · subst hi
        rw [w1_edge_row j (by omega)]
        simp
      rcases Nat.eq_zero_or_pos j with hj | hj
      · subst hj
        rw [w1_edge_col i]
        simp
      rw [w1_rec i j hi h1 hj h2]
      have ha := ih (i-1) j (by omega) (by omega) h2
      have hb := ih i (j-1) (by omega) h1 (by omega)
      have hm1 : 1 ≤ min i j := le_min hi hj
      have e1 : ((1:ℚ)/2)^(min (i-1) j) ≤ (1/2)^(min i j - 1) :=
        pow_le_pow_of_le_one (by norm_num) (by norm_num) (by omega)
      have e2 : ((1:ℚ)/2)^(min i (j-1)) ≤ (1/2)^(min i j - 1) :=
        pow_le_pow_of_le_one (by norm_num) (by norm_num) (by omega)
      have e3 : ((1:ℚ)/2) * ((1/2)^(min i j - 1)) = (1/2)^(min i j) := by
        rw [← pow_succ']
        congr 1
        omega
      linarith [ha.trans e1, hb.trans e2]

lemma w1_low : (1:ℚ)/1024 ≤ sweep 60 (initT 60 (0:ℚ) 1 1 1 1) 30 5 := by
  have h0 : sweep 60 (initT 60 (0:ℚ) 1 1 1 1) 30 0 = 1 := w1_edge_col 30
  have step : ∀ j, 1 ≤ j → j ≤ 57 →
      0.25 * sweep 60 (initT 60 (0:ℚ) 1 1 1 1) 30 (j-1)
        ≤ sweep 60 (initT 60 (0:ℚ) 1 1 1 1) 30 j := by
    intro j hj1 hj2
    rw [w1_rec 30 j (by omega) (by omega) hj1 hj2]
    have := (w1_bounds 29 j).1
    linarith
  have s1 := step 1 (by omega) (by omega)
  have s2 := step 2 (by omega) (by omega)
  have s3 := step 3 (by omega) (by omega)
  have s4 := step 4 (by omega) (by omega)
  have s5 := step 5 (by omega) (by omega)
  norm_num at s1 s2 s3 s4 s5
  rw [h0] at s1
  linarith

lemma w1_samples_differ :
    sweep 60 (initT 60 (0:ℚ) 1 1 1 1) 30 5
      ≠ sweep 60 (initT 60 (0:ℚ) 1 1 1 1) 54 30 := by
  have hu := w1_upper (54+30) 54 30 le_rfl (by omega) (by omega)
  have hm : min 54 30 = 30 := by norm_num
  rw [hm] at hu
  have hl := w1_low
  have hlt : ((1:ℚ)/2)^(30:ℕ) < 1/1024 := by norm_num
  intro heq
  rw [heq] at hl
  linarith

/-- Claim C6 counterexample: The claim "for every configuration with all four
boundary values equal and every `K`, the four sampled values are equal" is
false on the code: with all boundaries 1, guess 0 and `K = 1`, the Sampler
does not return four equal values (sample A, five cells from the left
boundary column, is at least `4⁻⁵`, while sample B, thirty cells deep, is
at most `2⁻³⁰`: the row-major Gauss-Seidel sweep order breaks the
quarter-turn symmetry). -/
theorem C6_counterexample :
    ¬ ∃ c : ℚ, concentrations (solve lenX 1 (initT lenX 0 1 1 1 1)) = [c, c, c, c] := by
  rintro ⟨c, hc⟩
  rw [show lenX = 60 from rfl] at hc
  rw [concentrations, wormA_x_val, wormA_y_val, wormB_x_val, wormB_y_val,
    wormC_x_val, wormC_y_val, wormD_x_val, wormD_y_val] at hc
  simp only [List.cons.injEq, and_true] at hc
  have hsolve1 : solve 60 1 (initT 60 (0:ℚ) 1 1 1 1)
      = sweep 60 (initT 60 (0:ℚ) 1 1 1 1) := by
    show (sweep 60)^[1] _ = _
    rw [Function.iterate_one]
  rw [hsolve1] at hc
  exact w1_samples_differ (hc.1.trans hc.2.1.symm)

/-- Claim C6 amended: What does hold for every configuration with all four
boundary values equal, and every iteration count `K`: the two
transposition-related sample pairs agree — sample A equals sample D, and
sample B equals sample C.  All four need not be equal (see the
counterexample): the in-place ascending sweep order preserves only the
transposition symmetry of the configuration, not its quarter-turn
symmetry. -/
theorem C6_amended (g c : ℚ) (K : ℕ) :
    solve lenX K (initT lenX g c c c c) wormA_y wormA_x
        = solve lenX K (initT lenX g c c c c) wormD_y wormD_x ∧
      solve lenX K (initT lenX g c c c c) wormB_y wormB_x
        = solve lenX K (initT lenX g c c c c) wormC_y wormC_x := by
  have hs := solve_symm lenX K (initT lenX g c c c c) (initT_allEqual_symm lenX g c)
  rw [wormA_x_val, wormA_y_val, wormB_x_val, wormB_y_val,
    wormC_x_val, wormC_y_val, wormD_x_val, wormD_y_val]
  exact ⟨hs 30 5, hs 54 30⟩

/-! ## Claim C8: the Sweep Driver -/

lemma foldl_append_eq_map {α β : Type} (f : α → β) :
    ∀ (L : List α) (acc : List β),
      L.foldl (fun a n => a ++ [f n]) acc = acc ++ L.map f := by
  intro L
  induction L with
  | nil => intro acc; simp
  | cons x L ih => intro acc; simp [ih]

/-- Claim C8: The Sweep Driver enumerates the iteration counts
`range(start, end+1, d)` — the arithmetic sequence 0, 20, …, 500 inclusive
(second conjunct) — and the record it accumulates is exactly one
`(count, four samples)` entry per count, in sweep order, where each entry is
computed from a completely fresh grid built from the uniform guess (first
conjunct: the appending loop equals a `map` of a per-count pure function
that re-initializes the field, so no state flows between steps).  `data` is
the final value of the accumulated record, produced once after the loop
finishes and then written out. -/
theorem C8_sweep_driver :
    data = (pythonRange startIter (endIter + 1) d).map
        (fun n => (n, concentrations (solve lenX n (initT lenX Tguess Ttop Tbottom Tright Tleft)))) ∧
      pythonRange startIter (endIter + 1) d =
        [0, 20, 40, 60, 80, 100, 120, 140, 160, 180, 200, 220, 240, 260, 280,
         300, 320, 340, 360, 380, 400, 420, 440, 460, 480, 500] := by
  constructor
  · rw [data, foldl_append_eq_map]
    simp
  · decide

/-! ## Claim C9: the hydrogel parameters do not influence the output -/

/-- Claim C9: The hydrogel physical parameters (porosity, drug size, pore
size, tortuosity, the five diffusivities — and the constrictivity `de`
computed from them) have no influence on the computed field or the sampled
concentrations: the observable record is the same for any two assignments
of values to these parameters.  (In the source, `de` is computed at line 58
and nothing derived from any of these parameters ever reaches the grid, the
solver or the sampler.) -/
theorem C9_hydrogel_params_unused (p q : HydrogelParams) :
    programData p = programData q := rfl

end Conduction
